import Mathlib

/-!
Verification of the confound-loading helper `prepare_confounds` from
`Nilearn_tutorial_2018_2_Extracting_Features.ipynb`:

    def prepare_confounds(conf, key = 'R', transpose=True):
        arrays = {}
        f = h5py.File(conf)
        for k, v in f.items():
            arrays[k] = np.array(v)

        if transpose:
            output = arrays[key].T
        else:
            output = arrays[key]

        return output

The embedding models the HDF5 container as a list of key/array bindings,
numeric arrays of rank 0, 1 and 2 with row-major flat storage, and the
ambient world as a file system plus a count of open file handles (the
source opens `f` and never closes it).
-/

namespace RSNilearn

/-- Kinds of failure the loader's call can surface: the file open raising
(`FileAccessError`, a `FileNotFoundError`-kind), the dict lookup raising
(`KeyNotFoundError`, a `KeyError`-kind), and the `ShapeError` kind named by
the error taxonomy for rank-incompatible transposes. -/
inductive LoadError where
  | fileAccessError : LoadError
  | keyNotFoundError : LoadError
  | shapeError : LoadError
  deriving DecidableEq, Repr

/-- A rank-2 numeric array: `rows * cols` entries stored row-major, the entry
at row `i`, column `j` sitting at flat index `i * cols + j`. -/
structure Arr2 where
  rows : Nat
  cols : Nat
  data : List Int
  deriving DecidableEq, Repr

/-- Row `i` of a rank-2 array, read off the row-major storage. -/
def Arr2.row (a : Arr2) (i : Nat) : List Int :=
  (List.range a.cols).map fun j => a.data.getD (i * a.cols + j) 0

/-- Column `j` of a rank-2 array, read off the row-major storage. -/
def Arr2.col (a : Arr2) (j : Nat) : List Int :=
  (List.range a.rows).map fun i => a.data.getD (i * a.cols + j) 0

/-- Transpose of a rank-2 array (numpy `.T` on a 2-d array): shape
`(cols, rows)`, entry at `(i, j)` equal to the source entry at `(j, i)`. -/
def Arr2.transpose (a : Arr2) : Arr2 :=
  { rows := a.cols
    cols := a.rows
    data := (List.range (a.cols * a.rows)).map fun idx =>
      a.data.getD ((idx % a.rows) * a.cols + idx / a.rows) 0 }

/-- The row-major storage is rectangular: exactly `rows * cols` entries. -/
def Arr2.WF (a : Arr2) : Prop := a.data.length = a.rows * a.cols

/-- A numeric array as stored in the confound file: rank 0, 1 or 2 (the
ranks the tutorial's confound containers hold). -/
inductive NDArray where
  | arr0 : Int → NDArray
  | arr1 : List Int → NDArray
  | arr2 : Arr2 → NDArray
  deriving DecidableEq, Repr

/-- numpy `.T`: reverses the axes, so it transposes a rank-2 array and is the
identity on arrays of rank below 2. -/
def NDArray.T : NDArray → NDArray
  | arr0 x => arr0 x
  | arr1 v => arr1 v
  | arr2 a => arr2 a.transpose

/-- Number of axes of the array. -/
def NDArray.rank : NDArray → Nat
  | arr0 _ => 0
  | arr1 _ => 1
  | arr2 _ => 2

/-- Well-formedness of a stored array: rank-2 storage is rectangular. -/
def NDArray.WF : NDArray → Prop
  | arr0 _ => True
  | arr1 _ => True
  | arr2 a => a.WF

/-- A confound file: the enumerable key/array bindings of the container. -/
abbrev ConfoundFile := List (String × NDArray)

/-- `arrays = {}; for k, v in f.items(): arrays[k] = np.array(v)` followed by
`arrays[key]`: successive dict assignment lets a later binding overwrite an
earlier one, so the lookup returns the last binding of `key`, and `none`
models the `KeyError` raised when no binding exists. -/
def dictLookup : ConfoundFile → String → Option NDArray
  | [], _ => none
  | kv :: rest, key =>
    match dictLookup rest key with
    | some v => some v
    | none => if kv.1 = key then some kv.2 else none

/-- The ambient state the call touches: the read-only file system and the
number of file handles the process holds open. -/
structure World where
  fs : String → Option ConfoundFile
  openHandles : Nat

/-- Shallow embedding of `prepare_confounds(conf, key, transpose)`.
`h5py.File(conf)` raises when the path cannot be opened (no handle is
acquired); otherwise a handle is opened — and the source never closes it, so
the open-handle count stays incremented on every remaining exit path:
the `KeyError` exit when `key` is unbound, and the normal return of
`arrays[key].T` (when `transpose` is set) or `arrays[key]`. -/
def prepare_confounds (w : World) (conf : String) (key : String)
    (transpose : Bool) : Except LoadError NDArray × World :=
  match w.fs conf with
  | none => (.error .fileAccessError, w)
  | some file =>
    let w1 : World := { w with openHandles := w.openHandles + 1 }
    match dictLookup file key with
    | none => (.error .keyNotFoundError, w1)
    | some v => (.ok (if transpose then v.T else v), w1)

/-- A concrete two-dimensional confound array of shape (2, 3). -/
def exArr2 : Arr2 := ⟨2, 3, [1, 2, 3, 4, 5, 6]⟩

/-- A concrete confound file binding the regressor key `R` to a rank-2 array
and a second key to an unrelated scalar. -/
def exFile2d : ConfoundFile := [("R", .arr2 exArr2), ("meta", .arr0 7)]

/-- A concrete confound file binding `R` to a rank-1 array. -/
def exFile1d : ConfoundFile := [("R", .arr1 [1, 2, 3])]

/-- A second concrete confound file binding `R` to the same rank-2 array as
`exFile2d`, but with different additional keys in a different order. -/
def exFile2dAlt : ConfoundFile := [("extra", .arr1 [9]), ("R", .arr2 exArr2)]

/-- A concrete file system holding the example confound files. -/
def exFS : String → Option ConfoundFile := fun p =>
  if p = "conf2d.mat" then some exFile2d
  else if p = "conf1d.mat" then some exFile1d
  else if p = "conf2dalt.mat" then some exFile2dAlt
  else none

/-- A concrete starting world: the example file system, no open handles. -/
def exW : World := ⟨exFS, 0⟩

instance instDecEqExceptLoad : DecidableEq (Except LoadError NDArray)
  | .ok a, .ok b => decidable_of_iff (a = b) (by simp)
  | .ok _, .error _ => isFalse (by simp)
  | .error _, .ok _ => isFalse (by simp)
  | .error a, .error b => decidable_of_iff (a = b) (by simp)

instance Arr2.instDecidableWF (a : Arr2) : Decidable a.WF :=
  inferInstanceAs (Decidable (a.data.length = a.rows * a.cols))

instance NDArray.instDecidableWF : (v : NDArray) → Decidable v.WF
  | arr0 _ => inferInstanceAs (Decidable True)
  | arr1 _ => inferInstanceAs (Decidable True)
  | arr2 a => inferInstanceAs (Decidable a.WF)

/-! ### Helper lemmas on row-major indexing -/

theorem getD_map_range (n : Nat) (f : Nat → Int) (k : Nat) :
    ((List.range n).map f).getD k 0 = if k < n then f k else 0 := by
  simp only [List.getD_eq_getElem?_getD, List.getElem?_map]
  rcases Nat.lt_or_ge k n with h | h
  · rw [List.getElem?_range h]; simp [h]
  · rw [List.getElem?_eq_none (by simpa using h)]
    simp [Nat.not_lt_of_ge h]

theorem map_range_getD_eq_self (l : List Int) (n : Nat) (h : l.length = n) :
    (List.range n).map (fun i => l.getD i 0) = l := by
  apply List.ext_getElem
  · simp [h]
  · intro i h1 h2
    simp only [List.getElem_map, List.getElem_range]
    rw [List.getD_eq_getElem l 0 h2]

theorem rowmajor_mod (a b c : Nat) (hb : b < c) : (a * c + b) % c = b := by
  rw [Nat.mul_comm a c, Nat.mul_add_mod]; exact Nat.mod_eq_of_lt hb

theorem rowmajor_div (a b c : Nat) (hb : b < c) : (a * c + b) / c = a := by
  rw [Nat.mul_comm a c, Nat.mul_add_div (Nat.lt_of_le_of_lt (Nat.zero_le b) hb)]
  simp [Nat.div_eq_of_lt hb]

theorem rowmajor_lt (i j r c : Nat) (hi : i < r) (hj : j < c) :
    i * c + j < r * c := by
  have h1 : i * c + j < c * (i + 1) := by
    rw [Nat.mul_succ, Nat.mul_comm c i]
    exact Nat.add_lt_add_left hj _
  have h2 : c * (i + 1) ≤ c * r := Nat.mul_le_mul_left c hi
  rw [Nat.mul_comm r c]
  exact Nat.lt_of_lt_of_le h1 h2

/-! ### Lemmas on the transpose -/

theorem Arr2.transpose_rows (a : Arr2) : a.transpose.rows = a.cols := rfl

theorem Arr2.transpose_cols (a : Arr2) : a.transpose.cols = a.rows := rfl

theorem Arr2.transpose_getD (a : Arr2) (i j : Nat) (hi : i < a.cols)
    (hj : j < a.rows) :
    a.transpose.data.getD (i * a.rows + j) 0 = a.data.getD (j * a.cols + i) 0 := by
  show ((List.range (a.cols * a.rows)).map fun idx =>
      a.data.getD ((idx % a.rows) * a.cols + idx / a.rows) 0).getD (i * a.rows + j) 0 =
    a.data.getD (j * a.cols + i) 0
  rw [getD_map_range, if_pos (rowmajor_lt i j a.cols a.rows hi hj),
    rowmajor_mod i j a.rows hj, rowmajor_div i j a.rows hj]

theorem Arr2.row_transpose (a : Arr2) (i : Nat) (hi : i < a.cols) :
    a.transpose.row i = a.col i := by
  show (List.range a.rows).map (fun j => a.transpose.data.getD (i * a.rows + j) 0) =
    (List.range a.rows).map fun j => a.data.getD (j * a.cols + i) 0
  apply List.map_congr_left
  intro j hj
  exact Arr2.transpose_getD a i j hi (List.mem_range.mp hj)

theorem Arr2.transpose_wf (a : Arr2) : a.transpose.WF := by
  show ((List.range (a.cols * a.rows)).map _).length = a.cols * a.rows
  simp

theorem Arr2.transpose_transpose (a : Arr2) (h : a.WF) : a.transpose.transpose = a := by
  obtain ⟨rows, cols, data⟩ := a
  have hlen : data.length = rows * cols := h
  show Arr2.mk rows cols ((List.range (rows * cols)).map fun idx =>
      (((List.range (cols * rows)).map fun k =>
        data.getD ((k % rows) * cols + k / rows) 0).getD
          ((idx % cols) * rows + idx / cols) 0))
    = Arr2.mk rows cols data
  congr 1
  apply List.ext_getElem
  · simpa using hlen.symm
  · intro idx h1 h2
    have hidx : idx < rows * cols := by simpa using h1
    have hc : 0 < cols := by
      rcases Nat.eq_zero_or_pos cols with hc0 | hc0
      · rw [hc0, Nat.mul_zero] at hidx
        exact absurd hidx (Nat.not_lt_zero idx)
      · exact hc0
    have hj : idx % cols < cols := Nat.mod_lt _ hc
    have hi : idx / cols < rows := Nat.div_lt_of_lt_mul (by rwa [Nat.mul_comm])
    simp only [List.getElem_map, List.getElem_range]
    rw [getD_map_range,
      if_pos (rowmajor_lt (idx % cols) (idx / cols) cols rows hj hi)]
    simp only [rowmajor_mod (idx % cols) (idx / cols) rows hi,
      rowmajor_div (idx % cols) (idx / cols) rows hi]
    have hidx2 : (idx / cols) * cols + idx % cols = idx := by
      rw [Nat.mul_comm]; exact Nat.div_add_mod idx cols
    rw [hidx2, List.getD_eq_getElem data 0 h2]

theorem NDArray.wf_T : (v : NDArray) → v.WF → v.T.WF
  | arr0 _, _ => trivial
  | arr1 _, _ => trivial
  | arr2 a, _ => Arr2.transpose_wf a

theorem NDArray.T_T : (v : NDArray) → v.WF → v.T.T = v
  | arr0 _, _ => rfl
  | arr1 _, _ => rfl
  | arr2 a, h => congrArg NDArray.arr2 (Arr2.transpose_transpose a h)

/-! ### Lemmas on the dict lookup -/

theorem dictLookup_eq_none (file : ConfoundFile) (key : String)
    (h : ∀ kv ∈ file, kv.1 ≠ key) : dictLookup file key = none := by
  induction file with
  | nil => rfl
  | cons kv rest ih =>
    simp only [dictLookup]
    rw [ih fun kv' h' => h kv' (List.mem_cons_of_mem _ h')]
    simp [h kv (List.mem_cons_self kv rest)]

theorem dictLookup_mem (file : ConfoundFile) (key : String) (v : NDArray)
    (h : dictLookup file key = some v) : (key, v) ∈ file := by
  induction file with
  | nil => simp [dictLookup] at h
  | cons kv rest ih =>
    simp only [dictLookup] at h
    cases hrest : dictLookup rest key with
    | some w =>
      rw [hrest] at h
      exact List.mem_cons_of_mem _ (ih (hrest.trans h))
    | none =>
      rw [hrest] at h
      have h' : (if kv.1 = key then some kv.2 else none) = some v := h
      by_cases hk : kv.1 = key
      · rw [if_pos hk] at h'
        have hv : kv.2 = v := by injection h'
        have hkv : kv = (key, v) := by
          obtain ⟨k1, v1⟩ := kv
          simp only at hk hv
          rw [hk, hv]
        rw [hkv]
        exact List.mem_cons_self _ _
      · rw [if_neg hk] at h'
        exact absurd h' (by simp)

theorem dictLookup_of_nodup_mem (file : ConfoundFile) (key : String) (v : NDArray)
    (hnd : (file.map Prod.fst).Nodup) (hmem : (key, v) ∈ file) :
    dictLookup file key = some v := by
  induction file with
  | nil => simp at hmem
  | cons kv rest ih =>
    simp only [List.map_cons, List.nodup_cons] at hnd
    rcases List.mem_cons.mp hmem with heq | hmem'
    · have hk1 : kv.1 = key := by rw [← heq]
      have hnone : dictLookup rest key = none := by
        apply dictLookup_eq_none
        intro kv' hmem2 hcontr
        have hin : kv'.1 ∈ List.map Prod.fst rest :=
          List.mem_map_of_mem Prod.fst hmem2
        rw [hcontr, ← hk1] at hin
        exact hnd.1 hin
      simp only [dictLookup]
      rw [hnone, if_pos hk1, ← heq]
    · simp only [dictLookup]
      rw [ih hnd.2 hmem']

/-! ### The claims -/

/-- C1: when the file binds `key` to a 2-dimensional array of shape
`(p, n)`, `prepare_confounds` with `transpose = true` returns its transpose —
shape `(n, p)`, output row `i` equal to stored column `i` — and with
`transpose = false` returns the stored array unchanged. -/
theorem load_transpose_correct (w : World) (conf key : String)
    (file : ConfoundFile) (A : Arr2) (hf : w.fs conf = some file)
    (hk : dictLookup file key = some (.arr2 A)) :
    (prepare_confounds w conf key true).1 = .ok (.arr2 A.transpose) ∧
    A.transpose.rows = A.cols ∧ A.transpose.cols = A.rows ∧
    (∀ i, i < A.cols → A.transpose.row i = A.col i) ∧
    (prepare_confounds w conf key false).1 = .ok (.arr2 A) := by
  refine ⟨?_, rfl, rfl, fun i hi => Arr2.row_transpose A i hi, ?_⟩ <;>
    simp [prepare_confounds, hf, hk, NDArray.T]

/-- Witness for C1: the example file binds `R` to a (2, 3) array, and the
loader returns its transpose. -/
theorem load_transpose_correct_witness :
    exW.fs "conf2d.mat" = some exFile2d ∧
    dictLookup exFile2d "R" = some (.arr2 exArr2) ∧
    (prepare_confounds exW "conf2d.mat" "R" true).1 = .ok (.arr2 exArr2.transpose) :=
  ⟨by decide, by decide,
    (load_transpose_correct exW "conf2d.mat" "R" exFile2d exArr2
      (by decide) (by decide)).1⟩

/-- C2: when the file does not bind the requested key, `prepare_confounds`
fails with the `KeyError`-kind failure, for both values of `transpose`. -/
theorem load_missing_key_raises (w : World) (conf key : String)
    (file : ConfoundFile) (t : Bool) (hf : w.fs conf = some file)
    (hk : dictLookup file key = none) :
    (prepare_confounds w conf key t).1 = .error .keyNotFoundError := by
  simp [prepare_confounds, hf, hk]

/-- Witness for C2: the example file has no key `missing`. -/
theorem load_missing_key_raises_witness :
    exW.fs "conf2d.mat" = some exFile2d ∧
    dictLookup exFile2d "missing" = none ∧
    (prepare_confounds exW "conf2d.mat" "missing" true).1 =
      .error .keyNotFoundError :=
  ⟨by decide, by decide,
    load_missing_key_raises exW "conf2d.mat" "missing" exFile2d true
      (by decide) (by decide)⟩

/-- C3: when the path does not reference an existing readable file, the
open raises and `prepare_confounds` fails with the `FileNotFoundError`-kind
failure; no result array is produced. -/
theorem load_missing_file_raises (w : World) (conf key : String) (t : Bool)
    (hf : w.fs conf = none) :
    (prepare_confounds w conf key t).1 = .error .fileAccessError ∧
    ∀ v : NDArray, (prepare_confounds w conf key t).1 ≠ .ok v := by
  constructor
  · simp [prepare_confounds, hf]
  · intro v
    simp [prepare_confounds, hf]

/-- Witness for C3: the example file system has no entry at
`/nonexistent/path`. -/
theorem load_missing_file_raises_witness :
    exW.fs "/nonexistent/path" = none ∧
    (prepare_confounds exW "/nonexistent/path" "R" true).1 =
      .error .fileAccessError :=
  ⟨by decide,
    (load_missing_file_raises exW "/nonexistent/path" "R" true (by decide)).1⟩

/-- C4 counterexample: on a file binding `R` to a 1-dimensional array,
`prepare_confounds` with `transpose = true` returns the array — it does not
fail with the `ShapeError` kind (numpy `.T` is the identity below rank 2). -/
theorem load_rank1_no_shape_error :
    (prepare_confounds exW "conf1d.mat" "R" true).1 = .ok (.arr1 [1, 2, 3]) ∧
    (prepare_confounds exW "conf1d.mat" "R" true).1 ≠ .error .shapeError := by
  decide

/-- C4 amended: when the array bound to the requested key has rank below 2
and a transpose is requested, `prepare_confounds` returns the array
unchanged rather than failing: the transpose of such an array is itself. -/
theorem load_low_rank_transpose_unchanged (w : World) (conf key : String)
    (file : ConfoundFile) (v : NDArray) (hf : w.fs conf = some file)
    (hk : dictLookup file key = some v) (hr : v.rank < 2) :
    (prepare_confounds w conf key true).1 = .ok v := by
  have hT : v.T = v := by
    cases v with
    | arr0 x => rfl
    | arr1 l => rfl
    | arr2 a => simp [NDArray.rank] at hr
  simp [prepare_confounds, hf, hk, hT]

/-- Witness for the amended C4: a rank-1 array comes back unchanged. -/
theorem load_low_rank_transpose_unchanged_witness :
    exW.fs "conf1d.mat" = some exFile1d ∧
    dictLookup exFile1d "R" = some (.arr1 [1, 2, 3]) ∧
    NDArray.rank (.arr1 [1, 2, 3]) < 2 ∧
    (prepare_confounds exW "conf1d.mat" "R" true).1 = .ok (.arr1 [1, 2, 3]) :=
  ⟨by decide, by decide, by decide,
    load_low_rank_transpose_unchanged exW "conf1d.mat" "R" exFile1d
      (.arr1 [1, 2, 3]) (by decide) (by decide) (by decide)⟩

/-- C5: the source opens the container with `h5py.File(conf)` and never
closes it, so on both exit paths that acquire the handle — the successful
return and the `KeyError` exit — the open-handle count stays incremented
after the call: the handle is leaked, not released. -/
theorem load_leaks_file_handle :
    exW.openHandles = 0 ∧
    (prepare_confounds exW "conf2d.mat" "R" true).2.openHandles = 1 ∧
    (prepare_confounds exW "conf2d.mat" "missing" true).2.openHandles = 1 := by
  decide

/-- C6: the call's result is a deterministic function of the file system,
the path, the key and the transpose flag — it does not depend on how many
handles were already open, so identical calls return identical arrays. -/
theorem load_deterministic (fs : String → Option ConfoundFile) (n n' : Nat)
    (conf key : String) (t : Bool) :
    (prepare_confounds ⟨fs, n⟩ conf key t).1 =
      (prepare_confounds ⟨fs, n'⟩ conf key t).1 := by
  cases hfs : fs conf with
  | none => simp [prepare_confounds, hfs]
  | some file =>
    cases hk : dictLookup file key with
    | none => simp [prepare_confounds, hfs, hk]
    | some v => simp [prepare_confounds, hfs, hk]

/-- C7: any array the loader returns from a well-formed file transposes to
itself after two transposes. -/
theorem load_transpose_involutive (w : World) (conf key : String) (t : Bool)
    (file : ConfoundFile) (M : NDArray) (hf : w.fs conf = some file)
    (hWF : ∀ kv ∈ file, NDArray.WF kv.2)
    (hres : (prepare_confounds w conf key t).1 = .ok M) :
    M.T.T = M := by
  cases hk : dictLookup file key with
  | none => simp [prepare_confounds, hf, hk] at hres
  | some v =>
    have hWFv : v.WF := hWF (key, v) (dictLookup_mem file key v hk)
    simp only [prepare_confounds, hf, hk] at hres
    have hres' : (if t then v.T else v) = M := by
      injection hres with hres
    cases t with
    | false =>
      rw [if_neg (by simp)] at hres'
      rw [← hres']
      exact NDArray.T_T v hWFv
    | true =>
      rw [if_pos rfl] at hres'
      rw [← hres']
      exact NDArray.T_T v.T (NDArray.wf_T v hWFv)

/-- Witness for C7: the loaded transpose of the example (2, 3) array is
restored by two further transposes. -/
theorem load_transpose_involutive_witness :
    exW.fs "conf2d.mat" = some exFile2d ∧
    (∀ kv ∈ exFile2d, NDArray.WF kv.2) ∧
    (prepare_confounds exW "conf2d.mat" "R" true).1 =
      .ok (NDArray.arr2 exArr2.transpose) ∧
    (NDArray.arr2 exArr2.transpose).T.T = NDArray.arr2 exArr2.transpose :=
  ⟨by decide, by decide, by decide,
    load_transpose_involutive exW "conf2d.mat" "R" true exFile2d
      (NDArray.arr2 exArr2.transpose) (by decide) (by decide) (by decide)⟩

/-- C8: the result depends only on the array bound to the requested key:
two files with unique keys binding `key` to the same array give the same
result, whatever other bindings they hold and in whatever order. -/
theorem load_depends_only_on_key_binding (w1 w2 : World)
    (conf1 conf2 key : String) (t : Bool) (f1 f2 : ConfoundFile) (v : NDArray)
    (hf1 : w1.fs conf1 = some f1) (hf2 : w2.fs conf2 = some f2)
    (hnd1 : (f1.map Prod.fst).Nodup) (hnd2 : (f2.map Prod.fst).Nodup)
    (h1 : (key, v) ∈ f1) (h2 : (key, v) ∈ f2) :
    (prepare_confounds w1 conf1 key t).1 = (prepare_confounds w2 conf2 key t).1 := by
  have e1 := dictLookup_of_nodup_mem f1 key v hnd1 h1
  have e2 := dictLookup_of_nodup_mem f2 key v hnd2 h2
  simp [prepare_confounds, hf1, hf2, e1, e2]

/-- Witness for C8: two example files bind `R` to the same (2, 3) array in
different positions and with different companion keys; the results agree. -/
theorem load_depends_only_on_key_binding_witness :
    exW.fs "conf2d.mat" = some exFile2d ∧
    exW.fs "conf2dalt.mat" = some exFile2dAlt ∧
    (exFile2d.map Prod.fst).Nodup ∧
    (exFile2dAlt.map Prod.fst).Nodup ∧
    ("R", NDArray.arr2 exArr2) ∈ exFile2d ∧
    ("R", NDArray.arr2 exArr2) ∈ exFile2dAlt ∧
    (prepare_confounds exW "conf2d.mat" "R" true).1 =
      (prepare_confounds exW "conf2dalt.mat" "R" true).1 :=
  ⟨by decide, by decide, by decide, by decide, by decide, by decide,
    load_depends_only_on_key_binding exW exW "conf2d.mat" "conf2dalt.mat" "R"
      true exFile2d exFile2dAlt (NDArray.arr2 exArr2) (by decide) (by decide)
      (by decide) (by decide) (by decide) (by decide)⟩

/-- C9: beyond the read, the call leaves the file system exactly as it was,
and no retained state influences a later identical call: repeating the call
on the post-state returns the same result. -/
theorem load_no_side_effects (w : World) (conf key : String) (t : Bool) :
    (prepare_confounds w conf key t).2.fs = w.fs ∧
    (prepare_confounds (prepare_confounds w conf key t).2 conf key t).1 =
      (prepare_confounds w conf key t).1 := by
  cases hfs : w.fs conf with
  | none => simp [prepare_confounds, hfs]
  | some file =>
    cases hk : dictLookup file key with
    | none => simp [prepare_confounds, hfs, hk]
    | some v => simp [prepare_confounds, hfs, hk]

/-- C10: when the requested key is bound to a 1-dimensional array and a
transpose is requested, the loader returns that array unchanged and raises
no error: numpy `.T` is the identity on a rank-1 array. -/
theorem load_rank1_transpose_identity (w : World) (conf key : String)
    (file : ConfoundFile) (l : List Int) (hf : w.fs conf = some file)
    (hk : dictLookup file key = some (.arr1 l)) :
    (prepare_confounds w conf key true).1 = .ok (.arr1 l) := by
  simp [prepare_confounds, hf, hk, NDArray.T]

/-- Witness for C10: the rank-1 example array comes back as stored. -/
theorem load_rank1_transpose_identity_witness :
    exW.fs "conf1d.mat" = some exFile1d ∧
    dictLookup exFile1d "R" = some (.arr1 [1, 2, 3]) ∧
    (prepare_confounds exW "conf1d.mat" "R" true).1 = .ok (.arr1 [1, 2, 3]) :=
  ⟨by decide, by decide,
    load_rank1_transpose_identity exW "conf1d.mat" "R" exFile1d [1, 2, 3]
      (by decide) (by decide)⟩

end RSNilearn
